import Mathlib

/-!
Verification development for the group-ledger backend of the
pay-chat-interact-design repository.

The definitions below are a shallow embedding of the JavaScript source:

* `backend/models/Group.js` — the `Group` mongoose model with its
  `addMember`, `removeMember` and `calculateBalances` methods;
* the `Expense` mongoose model — `calculateShares`, `settle`,
  `addSettlement`, `updateExpense`, the `pre('save')` share-recalculation
  hook and the `post('save')` group-totals hook;
* `backend/routes/expenses.js` and `backend/routes/groups.js` — the route
  handlers for update/delete/settle expense, add settlement, and delete
  group.

Mongoose `ObjectId`s are modelled as natural numbers, JavaScript numbers
holding money amounts as rationals (`ℚ`), and the document store as plain
lists of documents carrying their own ids.  `Math.round` is `⌊x + 1/2⌋`.
-/

namespace PayChat

/-- `Math.round`: round half toward positive infinity, as JavaScript does
for the positive amounts handled here. -/
def jround (q : ℚ) : ℤ := ⌊q + 1/2⌋

/-- `Math.round(v * 100) / 100` — the 2-decimal rounding used by the
`amount` schema setter and by `calculateShares`. -/
def round2 (q : ℚ) : ℚ := (jround (q * 100) : ℚ) / 100

/-- One `owes` edge of a balance row: this member owes `amount` to `to_`
(source field name `to`, a reserved token in Lean). -/
structure OweEntry where
  to_ : ℕ
  amount : ℚ
deriving DecidableEq, Repr

/-- One `owed` edge of a balance row: this member is owed `amount` by
`from_` (source field name `from`, a reserved word in Lean). -/
structure OwedEntry where
  from_ : ℕ
  amount : ℚ
deriving DecidableEq, Repr

/-- A row of the group's `balances` array. -/
structure Balance where
  user : ℕ
  balance : ℚ
  owes : List OweEntry
  owed : List OwedEntry
deriving DecidableEq, Repr

/-- A participant sub-document of an expense (`{user, share, shareType}`). -/
structure Participant where
  user : ℕ
  share : ℚ
  shareType : String
deriving DecidableEq, Repr

/-- A settlement sub-record of an expense. -/
structure SettlementRec where
  from_ : ℕ
  to_ : ℕ
  amount : ℚ
  method : String
deriving DecidableEq, Repr

/-- The `Expense` document (fields relevant to the ledger logic). -/
structure ExpenseDoc where
  id : ℕ
  description : String
  amount : ℚ
  paidBy : ℕ
  participants : List Participant
  group : ℕ
  splitMethod : String
  settled : Bool
  settledBy : Option ℕ
  settlements : List SettlementRec
  createdBy : ℕ
  editHistory : List ℕ
deriving DecidableEq, Repr

/-- A member sub-document of a group. -/
structure Member where
  user : ℕ
  role : String
  isActive : Bool
deriving DecidableEq, Repr

/-- An activity-log record (action tag and actor; the `details` blob and
timestamp play no role in any verified property). -/
structure ActivityRec where
  action : String
  performedBy : ℕ
deriving DecidableEq, Repr

/-- The `Group` document (fields relevant to the ledger logic). -/
structure GroupDoc where
  id : ℕ
  name : String
  createdBy : ℕ
  members : List Member
  expenses : List ℕ
  isActive : Bool
  totalExpenses : ℚ
  totalSettled : ℚ
  balances : List Balance
  activityLog : List ActivityRec
deriving DecidableEq, Repr

/-- A user document (only its group-membership list matters here). -/
structure UserDoc where
  id : ℕ
  groups : List ℕ
deriving DecidableEq, Repr

/-- The document store backing the routes. -/
structure Store where
  groups : List GroupDoc
  expenses : List ExpenseDoc
  users : List UserDoc
deriving DecidableEq, Repr

/-! ## Balance engine (`Group.calculateBalances`) -/

/-- Reset one balance row, as the first loop of `calculateBalances` does. -/
def resetRow (b : Balance) : Balance := { b with balance := 0, owes := [], owed := [] }

/-- `participantBalance.owes`: bump the first entry for creditor `t` by `s`,
or push a fresh entry (`existingOwe` merge in `calculateBalances`). -/
def addOwe : List OweEntry → ℕ → ℚ → List OweEntry
  | [], t, s => [⟨t, s⟩]
  | e :: rest, t, s =>
      if e.to_ = t then { e with amount := e.amount + s } :: rest
      else e :: addOwe rest t s

/-- `payerBalance.owed`: bump the first entry for debtor `f` by `s`, or push
a fresh entry (`existingOwed` merge in `calculateBalances`). -/
def addOwed : List OwedEntry → ℕ → ℚ → List OwedEntry
  | [], f, s => [⟨f, s⟩]
  | e :: rest, f, s =>
      if e.from_ = f then { e with amount := e.amount + s } :: rest
      else e :: addOwed rest f s

/-- `this.balances.find(b => b.user === u)` succeeds. -/
def hasRow : List Balance → ℕ → Bool
  | [], _ => false
  | b :: rest, u => b.user == u || hasRow rest u

/-- Push a zero-initialised row when the user has none, as
`calculateBalances` does for a missing payer or participant row. -/
def ensureRow (bs : List Balance) (u : ℕ) : List Balance :=
  if hasRow bs u then bs else bs ++ [⟨u, 0, [], []⟩]

/-- Mutate the first row of user `u` in place. -/
def updateRow : List Balance → ℕ → (Balance → Balance) → List Balance
  | [], _, _ => []
  | b :: rest, u, f => if b.user = u then f b :: rest else b :: updateRow rest u f

/-- The payer-row mutation of one (payer, participant) step:
`payerBalance.balance += splitAmount` and the `owed` merge. -/
def creditPayer (part : ℕ) (s : ℚ) (b : Balance) : Balance :=
  { b with balance := b.balance + s, owed := addOwed b.owed part s }

/-- The participant-row mutation of one (payer, participant) step:
`participantBalance.balance -= splitAmount` and the `owes` merge. -/
def debitParticipant (payer : ℕ) (s : ℚ) (b : Balance) : Balance :=
  { b with balance := b.balance - s, owes := addOwe b.owes payer s }

/-- One (payer, participant) step of `calculateBalances`: make sure both
rows exist, credit the payer, debit the participant.  Only reached when
`payer ≠ part`. -/
def applyPair (bs : List Balance) (payer part : ℕ) (s : ℚ) : List Balance :=
  let bs1 := ensureRow (ensureRow bs payer) part
  let bs2 := updateRow bs1 payer (creditPayer part s)
  updateRow bs2 part (debitParticipant payer s)

/-- Process one expense: `splitAmount = expense.amount / participants.length`
(the stored per-participant shares are not consulted), and every participant
other than the payer yields one `applyPair` step.  The source iterates
`expense.participants` and stringifies each element as the participant's
identity; here that identity is the participant's `user` field. -/
def applyExpense (bs : List Balance) (e : ExpenseDoc) : List Balance :=
  let s := e.amount / (e.participants.length : ℚ)
  e.participants.foldl
    (fun acc p => if e.paidBy = p.user then acc else applyPair acc e.paidBy p.user s) bs

/-- `Group.calculateBalances` over a given unsettled-entry set: reset every
existing row, then replay all expenses. -/
def calculateBalances (bs : List Balance) (es : List ExpenseDoc) : List Balance :=
  es.foldl applyExpense (bs.map resetRow)

/-- `calculateBalances` as the group method: recompute `balances` from the
given unsettled set and store the result on the group. -/
def recomputeBalances (g : GroupDoc) (es : List ExpenseDoc) : GroupDoc :=
  { g with balances := calculateBalances g.balances es }

/-! ## Observations on a balance table

The spec describes the table as a mapping from member to net balance and
owe/owed edge amounts; these lookups read it the way the code does
(`find` returning the first matching row/edge). -/

/-- Net balance of `u`: the first row's `balance`, `0` when there is none. -/
def netOf : List Balance → ℕ → ℚ
  | [], _ => 0
  | b :: rest, u => if b.user = u then b.balance else netOf rest u

/-- Amount of the first `owes` edge toward creditor `c`, `0` when absent. -/
def owesAmt : List OweEntry → ℕ → ℚ
  | [], _ => 0
  | e :: rest, c => if e.to_ = c then e.amount else owesAmt rest c

/-- Amount of the first `owed` edge from debtor `d`, `0` when absent. -/
def owedAmt : List OwedEntry → ℕ → ℚ
  | [], _ => 0
  | e :: rest, d => if e.from_ = d then e.amount else owedAmt rest d

/-- How much debtor `d` owes creditor `c` according to the table. -/
def owesOf : List Balance → ℕ → ℕ → ℚ
  | [], _, _ => 0
  | b :: rest, d, c => if b.user = d then owesAmt b.owes c else owesOf rest d c

/-- How much creditor `c` is owed by debtor `d` according to the table. -/
def owedOf : List Balance → ℕ → ℕ → ℚ
  | [], _, _ => 0
  | b :: rest, c, d => if b.user = c then owedAmt b.owed d else owedOf rest c d

/-- Sum of all rows' net balances. -/
def sumNet (bs : List Balance) : ℚ := (bs.map Balance.balance).sum

/-- The per-participant amount `calculateBalances` works with. -/
def share (e : ExpenseDoc) : ℚ := e.amount / (e.participants.length : ℚ)

/-- The net-balance contribution of one expense to user `u`. -/
def netContrib (e : ExpenseDoc) (u : ℕ) : ℚ :=
  (e.participants.map (fun p =>
    if e.paidBy = p.user then 0
    else (if u = e.paidBy then share e else 0) - (if u = p.user then share e else 0))).sum

/-- The contribution of one expense to the (debtor `d`, creditor `c`) pair. -/
def pairContrib (e : ExpenseDoc) (d c : ℕ) : ℚ :=
  (e.participants.map (fun p =>
    if e.paidBy = p.user then 0
    else if d = p.user ∧ c = e.paidBy then share e else 0)).sum

/-- Total net contribution of an entry set to user `u`. -/
def netSum (es : List ExpenseDoc) (u : ℕ) : ℚ := (es.map (fun e => netContrib e u)).sum

/-- Total (debtor, creditor) contribution of an entry set. -/
def pairSum (es : List ExpenseDoc) (d c : ℕ) : ℚ := (es.map (fun e => pairContrib e d c)).sum

/-- Whether one expense makes `calculateBalances` touch user `u`'s row. -/
def touchedE (e : ExpenseDoc) (u : ℕ) : Bool :=
  e.participants.any (fun p => decide (e.paidBy ≠ p.user ∧ (u = e.paidBy ∨ u = p.user)))

/-- Whether the entry set makes `calculateBalances` touch user `u`'s row. -/
def touched (es : List ExpenseDoc) (u : ℕ) : Bool := es.any (fun e => touchedE e u)

/-! ## Error taxonomy

Stable kinds for the failures the routes and model methods produce (the
source throws `Error`s / returns 4xx responses with messages; the spec
names them as below). -/

inductive Err where
  | notFound
  | forbidden
  | expenseAlreadySettled
  | alreadySettled
  | unsettledExpensesExist
  | shareMismatch
  | percentMismatch
  | emptyParticipants
  | validationFailure
  | notMember
deriving DecidableEq, Repr

/-! ## Split calculator (`Expense.calculateShares`) -/

/-- Sum of the stored participant shares. -/
def sharesSum (e : ExpenseDoc) : ℚ := (e.participants.map Participant.share).sum

/-- `expenseSchema.methods.calculateShares`:
* throws when there are no participants;
* `equal`: every share becomes `Math.round(amount / n * 100) / 100` —
  no residual-rounding correction;
* `exact`: validates `|sum(shares) - amount| > 0.01 → throw`, shares kept;
* `percentage`: validates `|sum(shares) - 100| > 0.01 → throw`, then each
  share becomes `Math.round(amount * share / 100 * 100) / 100`;
* any other splitMethod falls through the switch unchanged. -/
def calculateShares (e : ExpenseDoc) : Except Err ExpenseDoc :=
  if e.participants.length = 0 then .error .emptyParticipants
  else
    match e.splitMethod with
    | "equal" =>
        let equalShare := e.amount / (e.participants.length : ℚ)
        .ok { e with participants :=
                e.participants.map (fun p =>
                  { p with share := round2 equalShare, shareType := "equal" }) }
    | "exact" =>
        if |sharesSum e - e.amount| > 1/100 then .error .shareMismatch else .ok e
    | "percentage" =>
        if |sharesSum e - 100| > 1/100 then .error .percentMismatch
        else .ok { e with participants :=
                e.participants.map (fun p =>
                  { p with share := round2 (e.amount * p.share / 100),
                           shareType := "percentage" }) }
    | _ => .ok e

/-! ## Document-store primitives -/

/-- `findById` over a list of group documents (first id match). -/
def findG : List GroupDoc → ℕ → Option GroupDoc
  | [], _ => none
  | g :: rest, gid => if g.id = gid then some g else findG rest gid

/-- `findById` over a list of expense documents (first id match). -/
def findE : List ExpenseDoc → ℕ → Option ExpenseDoc
  | [], _ => none
  | e :: rest, eid => if e.id = eid then some e else findE rest eid

def findGroup (st : Store) (gid : ℕ) : Option GroupDoc := findG st.groups gid

def findExpense (st : Store) (eid : ℕ) : Option ExpenseDoc := findE st.expenses eid

/-- Persist an updated group document (replace by id). -/
def replaceG (l : List GroupDoc) (g : GroupDoc) : List GroupDoc :=
  l.map (fun h => if h.id = g.id then g else h)

def saveGroup (st : Store) (g : GroupDoc) : Store :=
  { st with groups := replaceG st.groups g }

/-- Persist an expense document: replace by id when present, insert
otherwise (mongoose `save`). -/
def replaceE (l : List ExpenseDoc) (e : ExpenseDoc) : List ExpenseDoc :=
  l.map (fun x => if x.id = e.id then e else x)

def putExpense (st : Store) (e : ExpenseDoc) : Store :=
  match findE st.expenses e.id with
  | some _ => { st with expenses := replaceE st.expenses e }
  | none => { st with expenses := st.expenses ++ [e] }

/-- `Expense.find({group: gid, settled: false})`. -/
def unsettledExpenses (st : Store) (gid : ℕ) : List ExpenseDoc :=
  st.expenses.filter (fun e => e.group == gid && !e.settled)

/-- `expenses.reduce((sum, exp) => sum + exp.amount, 0)` over
`Expense.find({group: gid})` — the `totalExpenses` the post-save hook
derives. -/
def amountSumL : List ExpenseDoc → ℕ → ℚ
  | [], _ => 0
  | e :: rest, gid => (if e.group = gid then e.amount else 0) + amountSumL rest gid

/-- `expenses.filter(exp => exp.settled).reduce((sum, exp) => sum + exp.amount, 0)`
over `Expense.find({group: gid})` — the `totalSettled` the post-save hook
derives. -/
def settledSumL : List ExpenseDoc → ℕ → ℚ
  | [], _ => 0
  | e :: rest, gid =>
      (if e.group = gid ∧ e.settled = true then e.amount else 0) + settledSumL rest gid

def settledSum (st : Store) (gid : ℕ) : ℚ := settledSumL st.expenses gid

/-! ## Expense persistence (`pre('save')` / `post('save')` hooks) -/

/-- `expenseSchema.post('save')`: re-derive the owning group's
`totalExpenses` and `totalSettled` from all of its expenses and register
the expense id on the group; no-op when the group is gone. -/
def postSaveExpense (st : Store) (e : ExpenseDoc) : Store :=
  match findGroup st e.group with
  | none => st
  | some g =>
      saveGroup st
        { g with
          totalExpenses := amountSumL st.expenses e.group,
          totalSettled := settledSumL st.expenses e.group,
          expenses := if e.id ∈ g.expenses then g.expenses else g.expenses ++ [e.id] }

/-- Save an expense whose amount/participants/splitMethod did not change:
the `pre('save')` hook skips `calculateShares`, then the document is
written and the `post('save')` hook runs. -/
def saveExpenseNoCalc (st : Store) (e : ExpenseDoc) : Store :=
  postSaveExpense (putExpense st e) e

/-- Save a new or share-relevant-modified expense: the `pre('save')` hook
runs `calculateShares` first and a thrown error aborts the save before
anything is written. -/
def saveExpenseWithCalc (st : Store) (e : ExpenseDoc) : Except Err Store :=
  match calculateShares e with
  | .error err => .error err
  | .ok e2 => .ok (saveExpenseNoCalc st e2)

/-! ## Expense model methods -/

/-- `expenseSchema.methods.settle`: mark settled, record the settler,
replace the settlement list when a non-empty one is supplied; then bump
the group's `totalSettled`, recompute its balances from the *stored*
unsettled set (the expense's own `settled = true` is not yet persisted at
that point) and save the group; finally save the expense, firing the
post-save totals hook. -/
def settleExpense (st : Store) (e : ExpenseDoc) (settler : ℕ)
    (sl : List SettlementRec) : Store :=
  let e2 := { e with settled := true, settledBy := some settler,
                     settlements := if sl.length > 0 then sl else e.settlements }
  let st1 :=
    match findGroup st e.group with
    | none => st
    | some g =>
        saveGroup st
          { g with totalSettled := g.totalSettled + e.amount,
                   balances := calculateBalances g.balances (unsettledExpenses st e.group) }
  saveExpenseNoCalc st1 e2

/-- `expenseSchema.methods.addSettlement`: push the settlement record; when
the running settlement total reaches the expense amount, flip `settled`;
save (no settled-state guard anywhere on this path). -/
def addSettlement (st : Store) (e : ExpenseDoc) (f t : ℕ) (amt : ℚ)
    (method : String) : Store :=
  let e1 := { e with settlements := e.settlements ++ [⟨f, t, amt, method⟩] }
  let totalSettled := (e1.settlements.map SettlementRec.amount).sum
  let e2 := if totalSettled ≥ e.amount then { e1 with settled := true } else e1
  saveExpenseNoCalc st e2

/-- The updatable fields of `PUT /:expenseId` that matter to the ledger. -/
structure ExpenseUpdates where
  description : Option String
  amount : Option ℚ
  participants : Option (List Participant)
  splitMethod : Option String
deriving DecidableEq, Repr

/-- `Object.assign(this, updates)`; the schema setter rounds an assigned
amount to two decimals. -/
def applyUpdates (e : ExpenseDoc) (u : ExpenseUpdates) : ExpenseDoc :=
  { e with
    description := u.description.getD e.description,
    amount := (u.amount.map round2).getD e.amount,
    participants := u.participants.getD e.participants,
    splitMethod := u.splitMethod.getD e.splitMethod }

/-- Whether the update touches a field that re-triggers `calculateShares`
in the `pre('save')` hook. -/
def updateTouchesShares (u : ExpenseUpdates) : Bool :=
  u.amount.isSome || u.participants.isSome || u.splitMethod.isSome

/-- `expenseSchema.methods.updateExpense`: apply the updates, append to
the edit history, save (with share recalculation when relevant). -/
def updateExpenseM (st : Store) (e : ExpenseDoc) (u : ExpenseUpdates)
    (editor : ℕ) : Except Err Store :=
  let e2 := { applyUpdates e u with editHistory := e.editHistory ++ [editor] }
  if updateTouchesShares u then saveExpenseWithCalc st e2
  else .ok (saveExpenseNoCalc st e2)

/-! ## Group model methods -/

/-- `member.isActive && member.user === uid` membership test the routes use. -/
def isActiveMember (g : GroupDoc) (uid : ℕ) : Bool :=
  g.members.any (fun m => m.user == uid && m.isActive)

/-- The admin test of the expense routes: the caller's member record has
role `admin`, or the caller created the group. -/
def isAdminOf (g : GroupDoc) (uid : ℕ) : Bool :=
  g.members.any (fun m => m.user == uid && m.role == "admin") || g.createdBy == uid

/-- `groupSchema.methods.removeMember`: splice out the first matching
member record, drop the removed user's balance row, strip every owes/owed
edge referencing them from the remaining rows, log the activity.  (The
`User.findByIdAndUpdate` pull on the removed user's own document is a
side effect on the users collection, irrelevant to the group state.)
Net `balance` values of the remaining rows are left untouched. -/
def removeMember (g : GroupDoc) (uid remover : ℕ) : Except Err GroupDoc :=
  if g.members.all (fun m => m.user != uid) then .error .notMember
  else .ok
    { g with
      members := g.members.eraseP (fun m => m.user == uid),
      balances := (g.balances.filter (fun b => b.user != uid)).map
        (fun b => { b with owes := b.owes.filter (fun o => o.to_ != uid),
                           owed := b.owed.filter (fun o => o.from_ != uid) }),
      activityLog := g.activityLog ++ [⟨"MEMBER_REMOVED", remover⟩] }

/-! ## Route handlers

Each handler returns the typed outcome together with the resulting store;
every early `return res.status(4xx)` leaves the store as it was. -/

/-- `PUT /:expenseId` (update an expense). -/
def updateExpenseRoute (st : Store) (caller eid : ℕ) (u : ExpenseUpdates) :
    Except Err Unit × Store :=
  match findExpense st eid with
  | none => (.error .notFound, st)
  | some e =>
    if e.settled then (.error .expenseAlreadySettled, st)
    else
      match findGroup st e.group with
      | none => (.error .notFound, st)
      | some g =>
        if isActiveMember g caller then
          if e.createdBy == caller || isAdminOf g caller then
            match updateExpenseM st e u caller with
            | .ok st2 => (.ok (), st2)
            | .error err => (.error err, st)
          else (.error .forbidden, st)
        else (.error .forbidden, st)

/-- `DELETE /:expenseId` (delete an expense): pull the id from the group's
expense list, then delete the document. -/
def deleteExpenseRoute (st : Store) (caller eid : ℕ) :
    Except Err Unit × Store :=
  match findExpense st eid with
  | none => (.error .notFound, st)
  | some e =>
    if e.settled then (.error .expenseAlreadySettled, st)
    else
      match findGroup st e.group with
      | none => (.error .notFound, st)
      | some g =>
        if isActiveMember g caller then
          if e.createdBy == caller || isAdminOf g caller then
            let st1 := saveGroup st { g with expenses := g.expenses.filter (fun i => i != eid) }
            (.ok (), { st1 with expenses := st1.expenses.filter (fun x => x.id != eid) })
          else (.error .forbidden, st)
        else (.error .forbidden, st)

/-- `POST /:expenseId/settle` (bulk settle). -/
def settleRoute (st : Store) (caller eid : ℕ) (sl : List SettlementRec) :
    Except Err Unit × Store :=
  match findExpense st eid with
  | none => (.error .notFound, st)
  | some e =>
    if e.settled then (.error .alreadySettled, st)
    else
      match findGroup st e.group with
      | none => (.error .notFound, st)
      | some g =>
        if isActiveMember g caller then (.ok (), settleExpense st e caller sl)
        else (.error .forbidden, st)

/-- `POST /:expenseId/settlements` (add one settlement).  The
express-validator chain requires `amount ≥ 0.01`; the handler checks
membership and that the caller is a party to the settlement — but never
that the expense is still unsettled. -/
def addSettlementRoute (st : Store) (caller eid : ℕ) (f t : ℕ) (amt : ℚ)
    (method : String) : Except Err Unit × Store :=
  if amt < 1/100 then (.error .validationFailure, st)
  else
    match findExpense st eid with
    | none => (.error .notFound, st)
    | some e =>
      match findGroup st e.group with
      | none => (.error .notFound, st)
      | some g =>
        if isActiveMember g caller then
          if f == caller || t == caller then
            (.ok (), addSettlement st e f t amt method)
          else (.error .forbidden, st)
        else (.error .forbidden, st)

/-- Saving a brand-new expense (`await expense.save()` in the create
route): the pre-save hook validates shares and a thrown error reaches the
catch block with nothing persisted. -/
def saveNewExpense (st : Store) (e : ExpenseDoc) : Except Err Unit × Store :=
  match saveExpenseWithCalc st e with
  | .ok st2 => (.ok (), st2)
  | .error err => (.error err, st)

/-- `DELETE /:groupId` (delete a group): only the creator may delete; any
unsettled expense aborts the operation; otherwise the group id is pulled
from every user's membership list and the group is soft-deleted
(`isActive := false`, document kept). -/
def deleteGroupRoute (st : Store) (caller gid : ℕ) :
    Except Err Unit × Store :=
  match findGroup st gid with
  | none => (.error .notFound, st)
  | some g =>
    if g.createdBy == caller then
      if (unsettledExpenses st gid).length > 0 then
        (.error .unsettledExpensesExist, st)
      else
        let st1 := { st with users := st.users.map (fun usr =>
          if gid ∈ usr.groups then { usr with groups := usr.groups.filter (fun x => x != gid) }
          else usr) }
        (.ok (), saveGroup st1 { g with isActive := false })
    else (.error .forbidden, st)

/-! ## Lemmas: the balance engine as a sum of per-entry contributions

`calculateBalances` resets every row and replays the entry set, so each
observable of the resulting table (row presence, net balance, pairwise
owe/owed amounts) is the sum of independent per-entry contributions.
These lemmas walk that up the call structure: first the row primitives
(`ensureRow`, `updateRow`), then one (payer, participant) step, then one
expense, then the whole fold. -/

theorem netOf_append_zero (bs : List Balance) (v u : ℕ) :
    netOf (bs ++ [⟨v, 0, [], []⟩]) u = netOf bs u := by
  induction bs with
  | nil => simp [netOf]
  | cons b rest ih => by_cases h : b.user = u <;> simp [netOf, h, ih]

theorem netOf_ensureRow (bs : List Balance) (v u : ℕ) :
    netOf (ensureRow bs v) u = netOf bs u := by
  unfold ensureRow
  split
  · rfl
  · exact netOf_append_zero bs v u

theorem hasRow_append_zero (bs : List Balance) (v u : ℕ) :
    hasRow (bs ++ [⟨v, 0, [], []⟩]) u = (hasRow bs u || (v == u)) := by
  induction bs with
  | nil => simp [hasRow]
  | cons b rest ih => simp [hasRow, ih, Bool.or_assoc]

theorem hasRow_ensureRow (bs : List Balance) (v u : ℕ) :
    hasRow (ensureRow bs v) u = (hasRow bs u || (v == u)) := by
  unfold ensureRow
  split
  · rename_i h
    by_cases hvu : v = u
    · subst hvu; simp [h]
    · simp [hvu]
  · exact hasRow_append_zero bs v u

theorem hasRow_ensureRow_self (bs : List Balance) (v : ℕ) :
    hasRow (ensureRow bs v) v = true := by
  simp [hasRow_ensureRow]

theorem hasRow_updateRow (bs : List Balance) (v : ℕ) (f : Balance → Balance)
    (huser : ∀ b, (f b).user = b.user) (u : ℕ) :
    hasRow (updateRow bs v f) u = hasRow bs u := by
  induction bs with
  | nil => rfl
  | cons b rest ih =>
    by_cases hbv : b.user = v
    · simp [updateRow, hasRow, hbv, huser]
    · simp [updateRow, hasRow, hbv, ih]

theorem netOf_updateRow (bs : List Balance) (v u : ℕ) (f : Balance → Balance) (d : ℚ)
    (huser : ∀ b, (f b).user = b.user) (hbal : ∀ b, (f b).balance = b.balance + d) :
    netOf (updateRow bs v f) u
      = netOf bs u + (if u = v ∧ hasRow bs v = true then d else 0) := by
  induction bs with
  | nil => simp [updateRow, netOf, hasRow]
  | cons b rest ih =>
    by_cases hbv : b.user = v
    · by_cases huv : u = v
      · have hbu : b.user = u := by rw [hbv, huv]
        simp [updateRow, netOf, hasRow, hbv, huv, hbu, huser, hbal]
      · have hvu : ¬(v = u) := fun h => huv h.symm
        simp [updateRow, netOf, hasRow, hbv, huv, hvu, huser]
    · by_cases hbu : b.user = u
      · have huv : ¬(u = v) := fun h => hbv (by rw [hbu, ← h])
        simp [updateRow, netOf, hasRow, hbv, hbu, huv]
      · simp [updateRow, netOf, hasRow, hbv, hbu, ih]

theorem netOf_applyPair (bs : List Balance) (p q : ℕ) (s : ℚ) (_hpq : p ≠ q) (u : ℕ) :
    netOf (applyPair bs p q s) u
      = netOf bs u + (if u = p then s else 0) - (if u = q then s else 0) := by
  unfold applyPair
  have hcu : ∀ b, (creditPayer q s b).user = b.user := fun b => rfl
  have hcb : ∀ b, (creditPayer q s b).balance = b.balance + s := fun b => rfl
  have hdu : ∀ b, (debitParticipant p s b).user = b.user := fun b => rfl
  have hdb : ∀ b, (debitParticipant p s b).balance = b.balance + (-s) := fun b => by
    simp [debitParticipant, sub_eq_add_neg]
  have h1 : hasRow (ensureRow (ensureRow bs p) q) p = true := by
    simp [hasRow_ensureRow, hasRow_ensureRow_self]
  have h2 : hasRow (updateRow (ensureRow (ensureRow bs p) q) p (creditPayer q s)) q = true := by
    rw [hasRow_updateRow _ _ _ hcu, hasRow_ensureRow_self]
  rw [netOf_updateRow _ _ _ _ _ hdu hdb, h2, netOf_updateRow _ _ _ _ _ hcu hcb, h1,
      netOf_ensureRow, netOf_ensureRow]
  simp only [eq_self_iff_true, and_true]
  split_ifs <;> ring

theorem netOf_foldParts (payer : ℕ) (s : ℚ) (u : ℕ) (ps : List Participant) :
    ∀ bs : List Balance,
      netOf (ps.foldl (fun acc p => if payer = p.user then acc
          else applyPair acc payer p.user s) bs) u
        = netOf bs u + (ps.map (fun p => if payer = p.user then 0
            else (if u = payer then s else 0) - (if u = p.user then s else 0))).sum := by
  induction ps with
  | nil => intro bs; simp
  | cons p ps ih =>
    intro bs
    simp only [List.foldl_cons, List.map_cons, List.sum_cons]
    by_cases hp : payer = p.user
    · rw [if_pos hp, if_pos hp, ih]; ring
    · rw [if_neg hp, if_neg hp, ih, netOf_applyPair _ _ _ _ hp]; ring

theorem netOf_applyExpense (bs : List Balance) (e : ExpenseDoc) (u : ℕ) :
    netOf (applyExpense bs e) u = netOf bs u + netContrib e u :=
  netOf_foldParts e.paidBy (share e) u e.participants bs

theorem netOf_reset (bs : List Balance) (u : ℕ) :
    netOf (bs.map resetRow) u = 0 := by
  induction bs with
  | nil => rfl
  | cons b rest ih => by_cases h : b.user = u <;> simp [netOf, resetRow, h, ih]

theorem netOf_foldExpenses (u : ℕ) (es : List ExpenseDoc) :
    ∀ bs : List Balance,
      netOf (es.foldl applyExpense bs) u = netOf bs u + netSum es u := by
  induction es with
  | nil => intro bs; simp [netSum]
  | cons e es ih =>
    intro bs
    simp only [List.foldl_cons]
    rw [ih, netOf_applyExpense]
    simp [netSum]
    ring

/-- Net balances in a recomputed table are sums of per-entry contributions
(and in particular do not depend on the incoming table). -/
theorem netOf_calculateBalances (bs : List Balance) (es : List ExpenseDoc) (u : ℕ) :
    netOf (calculateBalances bs es) u = netSum es u := by
  unfold calculateBalances
  rw [netOf_foldExpenses, netOf_reset, zero_add]

/-! The zero-sum ladder: every mutation step of `calculateBalances` moves
equal and opposite amounts, so the total of all rows' net balances stays
at the `0` the reset loop establishes. -/

theorem sumNet_append_zero (bs : List Balance) (v : ℕ) :
    sumNet (bs ++ [⟨v, 0, [], []⟩]) = sumNet bs := by
  simp [sumNet]

theorem sumNet_ensureRow (bs : List Balance) (v : ℕ) :
    sumNet (ensureRow bs v) = sumNet bs := by
  unfold ensureRow
  split
  · rfl
  · exact sumNet_append_zero bs v

theorem sumNet_updateRow (bs : List Balance) (v : ℕ) (f : Balance → Balance) (d : ℚ)
    (hbal : ∀ b, (f b).balance = b.balance + d) :
    sumNet (updateRow bs v f) = sumNet bs + (if hasRow bs v = true then d else 0) := by
  induction bs with
  | nil => simp [updateRow, sumNet, hasRow]
  | cons b rest ih =>
    by_cases hbv : b.user = v
    · simp [updateRow, sumNet, hasRow, hbv, hbal]; ring
    · have hh : hasRow (b :: rest) v = hasRow rest v := by simp [hasRow, hbv]
      simp only [updateRow, if_neg hbv, sumNet, List.map_cons, List.sum_cons, hh]
      simp only [sumNet] at ih
      rw [ih]; ring

theorem sumNet_applyPair (bs : List Balance) (p q : ℕ) (s : ℚ) :
    sumNet (applyPair bs p q s) = sumNet bs := by
  unfold applyPair
  have hcu : ∀ b, (creditPayer q s b).user = b.user := fun b => rfl
  have hcb : ∀ b, (creditPayer q s b).balance = b.balance + s := fun b => rfl
  have hdb : ∀ b, (debitParticipant p s b).balance = b.balance + (-s) := fun b => by
    simp [debitParticipant, sub_eq_add_neg]
  have h1 : hasRow (ensureRow (ensureRow bs p) q) p = true := by
    simp [hasRow_ensureRow, hasRow_ensureRow_self]
  have h2 : hasRow (updateRow (ensureRow (ensureRow bs p) q) p (creditPayer q s)) q = true := by
    rw [hasRow_updateRow _ _ _ hcu, hasRow_ensureRow_self]
  rw [sumNet_updateRow _ _ _ _ hdb, h2, sumNet_updateRow _ _ _ _ hcb, h1,
      sumNet_ensureRow, sumNet_ensureRow]
  simp

theorem sumNet_applyExpense (bs : List Balance) (e : ExpenseDoc) :
    sumNet (applyExpense bs e) = sumNet bs := by
  unfold applyExpense
  generalize e.amount / (e.participants.length : ℚ) = s
  induction e.participants generalizing bs with
  | nil => rfl
  | cons p ps ih =>
    simp only [List.foldl_cons]
    by_cases hp : e.paidBy = p.user
    · rw [if_pos hp, ih]
    · rw [if_neg hp, ih, sumNet_applyPair]

theorem sumNet_reset (bs : List Balance) : sumNet (bs.map resetRow) = 0 := by
  induction bs with
  | nil => rfl
  | cons b rest ih => simp [sumNet, resetRow] at ih ⊢; exact ih

/-- The sum of all net balances in a recomputed table is zero, whatever
table and entry set the recomputation starts from. -/
theorem sumNet_calculateBalances (bs : List Balance) (es : List ExpenseDoc) :
    sumNet (calculateBalances bs es) = 0 := by
  unfold calculateBalances
  generalize hacc : bs.map resetRow = acc
  have hz : sumNet acc = 0 := by rw [← hacc]; exact sumNet_reset bs
  clear hacc
  induction es generalizing acc with
  | nil => exact hz
  | cons e es ih => simp only [List.foldl_cons]; exact ih _ (by rw [sumNet_applyExpense]; exact hz)

/-! The row-presence ladder. -/

theorem hasRow_applyPair (bs : List Balance) (p q : ℕ) (s : ℚ) (u : ℕ) :
    hasRow (applyPair bs p q s) u = (hasRow bs u || (p == u) || (q == u)) := by
  unfold applyPair
  have hcu : ∀ b, (creditPayer q s b).user = b.user := fun b => rfl
  have hdu : ∀ b, (debitParticipant p s b).user = b.user := fun b => rfl
  rw [hasRow_updateRow _ _ _ hdu, hasRow_updateRow _ _ _ hcu,
      hasRow_ensureRow, hasRow_ensureRow]

theorem hasRow_applyExpense (bs : List Balance) (e : ExpenseDoc) (u : ℕ) :
    hasRow (applyExpense bs e) u = (hasRow bs u || touchedE e u) := by
  unfold applyExpense touchedE
  generalize e.amount / (e.participants.length : ℚ) = s
  induction e.participants generalizing bs with
  | nil => simp
  | cons p ps ih =>
    simp only [List.foldl_cons, List.any_cons]
    by_cases hp : e.paidBy = p.user
    · rw [if_pos hp, ih]
      simp [hp]
    · rw [if_neg hp, ih, hasRow_applyPair]
      by_cases hup : u = e.paidBy
      · subst hup; simp [hp]
      · by_cases hupp : u = p.user
        · subst hupp; simp [hp]
        · have hb1 : (e.paidBy == u) = false := by
            simp; exact fun h => hup h.symm
          have hb2 : (p.user == u) = false := by
            simp; exact fun h => hupp h.symm
          simp [hp, hup, hupp, hb1, hb2]

theorem hasRow_reset (bs : List Balance) (u : ℕ) :
    hasRow (bs.map resetRow) u = hasRow bs u := by
  induction bs with
  | nil => rfl
  | cons b rest ih => simp [hasRow, resetRow, ih]

/-- Which users end up with a row after a recomputation: exactly those who
already had one plus everyone an entry touches — a row is created even for
users the entry set mentions that the incoming table does not know. -/
theorem hasRow_calculateBalances (bs : List Balance) (es : List ExpenseDoc) (u : ℕ) :
    hasRow (calculateBalances bs es) u = (hasRow bs u || touched es u) := by
  unfold calculateBalances touched
  rw [← hasRow_reset bs u]
  generalize bs.map resetRow = acc
  induction es generalizing acc with
  | nil => simp
  | cons e es ih =>
    simp only [List.foldl_cons, List.any_cons]
    rw [ih, hasRow_applyExpense, Bool.or_assoc]

/-! The pairwise owes/owed ladder. -/

theorem owesAmt_addOwe (os : List OweEntry) (t : ℕ) (s : ℚ) (c : ℕ) :
    owesAmt (addOwe os t s) c = owesAmt os c + (if c = t then s else 0) := by
  induction os with
  | nil =>
    by_cases h : t = c
    · simp [addOwe, owesAmt, h]
    · have h2 : ¬(c = t) := fun hh => h hh.symm
      simp [addOwe, owesAmt, h, h2]
  | cons o os ih =>
    by_cases hot : o.to_ = t
    · by_cases hoc : o.to_ = c
      · have hct : c = t := by rw [← hoc, hot]
        simp [addOwe, owesAmt, hot, hoc, hct]
      · have hct : ¬(c = t) := by rw [← hot]; exact fun hh => hoc hh.symm
        have htc : ¬(t = c) := fun hh => hct hh.symm
        simp [addOwe, owesAmt, hot, hoc, hct, htc]
    · by_cases hoc : o.to_ = c
      · have hct : ¬(c = t) := fun hh => hot (by rw [hoc, hh])
        simp [addOwe, owesAmt, hot, hoc, hct]
      · simp [addOwe, owesAmt, hot, hoc, ih]

theorem owedAmt_addOwed (os : List OwedEntry) (t : ℕ) (s : ℚ) (c : ℕ) :
    owedAmt (addOwed os t s) c = owedAmt os c + (if c = t then s else 0) := by
  induction os with
  | nil =>
    by_cases h : t = c
    · simp [addOwed, owedAmt, h]
    · have h2 : ¬(c = t) := fun hh => h hh.symm
      simp [addOwed, owedAmt, h, h2]
  | cons o os ih =>
    by_cases hot : o.from_ = t
    · by_cases hoc : o.from_ = c
      · have hct : c = t := by rw [← hoc, hot]
        simp [addOwed, owedAmt, hot, hoc, hct]
      · have hct : ¬(c = t) := by rw [← hot]; exact fun hh => hoc hh.symm
        have htc : ¬(t = c) := fun hh => hct hh.symm
        simp [addOwed, owedAmt, hot, hoc, hct, htc]
    · by_cases hoc : o.from_ = c
      · have hct : ¬(c = t) := fun hh => hot (by rw [hoc, hh])
        simp [addOwed, owedAmt, hot, hoc, hct]
      · simp [addOwed, owedAmt, hot, hoc, ih]

theorem owesOf_append_zero (bs : List Balance) (v d c : ℕ) :
    owesOf (bs ++ [⟨v, 0, [], []⟩]) d c = owesOf bs d c := by
  induction bs with
  | nil => simp [owesOf, owesAmt]
  | cons b rest ih => by_cases h : b.user = d <;> simp [owesOf, h, ih]

theorem owesOf_ensureRow (bs : List Balance) (v d c : ℕ) :
    owesOf (ensureRow bs v) d c = owesOf bs d c := by
  unfold ensureRow
  split
  · rfl
  · exact owesOf_append_zero bs v d c

theorem owedOf_append_zero (bs : List Balance) (v d c : ℕ) :
    owedOf (bs ++ [⟨v, 0, [], []⟩]) d c = owedOf bs d c := by
  induction bs with
  | nil => simp [owedOf, owedAmt]
  | cons b rest ih => by_cases h : b.user = d <;> simp [owedOf, h, ih]

theorem owedOf_ensureRow (bs : List Balance) (v d c : ℕ) :
    owedOf (ensureRow bs v) d c = owedOf bs d c := by
  unfold ensureRow
  split
  · rfl
  · exact owedOf_append_zero bs v d c

theorem owesOf_updateRow_keep (bs : List Balance) (v d c : ℕ) (f : Balance → Balance)
    (huser : ∀ b, (f b).user = b.user) (howes : ∀ b, (f b).owes = b.owes) :
    owesOf (updateRow bs v f) d c = owesOf bs d c := by
  induction bs with
  | nil => rfl
  | cons b rest ih =>
    by_cases hbv : b.user = v
    · simp [updateRow, owesOf, hbv, huser, howes]
    · simp [updateRow, owesOf, hbv, ih]

theorem owedOf_updateRow_keep (bs : List Balance) (v d c : ℕ) (f : Balance → Balance)
    (huser : ∀ b, (f b).user = b.user) (howed : ∀ b, (f b).owed = b.owed) :
    owedOf (updateRow bs v f) d c = owedOf bs d c := by
  induction bs with
  | nil => rfl
  | cons b rest ih =>
    by_cases hbv : b.user = v
    · simp [updateRow, owedOf, hbv, huser, howed]
    · simp [updateRow, owedOf, hbv, ih]

theorem owesOf_updateRow_add (bs : List Balance) (v : ℕ) (f : Balance → Balance)
    (t : ℕ) (s : ℚ) (d c : ℕ)
    (huser : ∀ b, (f b).user = b.user) (howes : ∀ b, (f b).owes = addOwe b.owes t s) :
    owesOf (updateRow bs v f) d c
      = owesOf bs d c + (if d = v ∧ hasRow bs v = true ∧ c = t then s else 0) := by
  induction bs with
  | nil => simp [updateRow, owesOf, hasRow]
  | cons b rest ih =>
    by_cases hbv : b.user = v
    · by_cases hdv : d = v
      · have hbd : b.user = d := by rw [hbv, hdv]
        simp [updateRow, owesOf, hasRow, hbv, hdv, hbd, huser, howes, owesAmt_addOwe]
      · have hvd : ¬(v = d) := fun h => hdv h.symm
        simp [updateRow, owesOf, hasRow, hbv, hdv, hvd, huser, howes]
    · by_cases hbd : b.user = d
      · have hdv : ¬(d = v) := fun h => hbv (by rw [hbd, h])
        simp [updateRow, owesOf, hasRow, hbv, hbd, hdv]
      · simp [updateRow, owesOf, hasRow, hbv, hbd, ih]

theorem owedOf_updateRow_add (bs : List Balance) (v : ℕ) (f : Balance → Balance)
    (t : ℕ) (s : ℚ) (d c : ℕ)
    (huser : ∀ b, (f b).user = b.user) (howed : ∀ b, (f b).owed = addOwed b.owed t s) :
    owedOf (updateRow bs v f) d c
      = owedOf bs d c + (if d = v ∧ hasRow bs v = true ∧ c = t then s else 0) := by
  induction bs with
  | nil => simp [updateRow, owedOf, hasRow]
  | cons b rest ih =>
    by_cases hbv : b.user = v
    · by_cases hdv : d = v
      · have hbd : b.user = d := by rw [hbv, hdv]
        simp [updateRow, owedOf, hasRow, hbv, hdv, hbd, huser, howed, owedAmt_addOwed]
      · have hvd : ¬(v = d) := fun h => hdv h.symm
        simp [updateRow, owedOf, hasRow, hbv, hdv, hvd, huser, howed]
    · by_cases hbd : b.user = d
      · have hdv : ¬(d = v) := fun h => hbv (by rw [hbd, h])
        simp [updateRow, owedOf, hasRow, hbv, hbd, hdv]
      · simp [updateRow, owedOf, hasRow, hbv, hbd, ih]

theorem owesOf_applyPair (bs : List Balance) (p q : ℕ) (s : ℚ) (d c : ℕ) :
    owesOf (applyPair bs p q s) d c
      = owesOf bs d c + (if d = q ∧ c = p then s else 0) := by
  unfold applyPair
  have hcu : ∀ b, (creditPayer q s b).user = b.user := fun b => rfl
  have hcw : ∀ b, (creditPayer q s b).owes = b.owes := fun b => rfl
  have hdu : ∀ b, (debitParticipant p s b).user = b.user := fun b => rfl
  have hdw : ∀ b, (debitParticipant p s b).owes = addOwe b.owes p s := fun b => rfl
  have h2 : hasRow (updateRow (ensureRow (ensureRow bs p) q) p (creditPayer q s)) q = true := by
    rw [hasRow_updateRow _ _ _ hcu, hasRow_ensureRow_self]
  rw [owesOf_updateRow_add _ _ _ _ _ _ _ hdu hdw, h2,
      owesOf_updateRow_keep _ _ _ _ _ hcu hcw, owesOf_ensureRow, owesOf_ensureRow]
  simp

theorem owedOf_applyPair (bs : List Balance) (p q : ℕ) (s : ℚ) (x y : ℕ) :
    owedOf (applyPair bs p q s) x y
      = owedOf bs x y + (if x = p ∧ y = q then s else 0) := by
  unfold applyPair
  have hcu : ∀ b, (creditPayer q s b).user = b.user := fun b => rfl
  have hcd : ∀ b, (creditPayer q s b).owed = addOwed b.owed q s := fun b => rfl
  have hdu : ∀ b, (debitParticipant p s b).user = b.user := fun b => rfl
  have hdd : ∀ b, (debitParticipant p s b).owed = b.owed := fun b => rfl
  have h1 : hasRow (ensureRow (ensureRow bs p) q) p = true := by
    simp [hasRow_ensureRow, hasRow_ensureRow_self]
  rw [owedOf_updateRow_keep _ _ _ _ _ hdu hdd,
      owedOf_updateRow_add _ _ _ _ _ _ _ hcu hcd, h1, owedOf_ensureRow, owedOf_ensureRow]
  simp

theorem owesOf_foldParts (payer : ℕ) (s : ℚ) (d c : ℕ) (ps : List Participant) :
    ∀ bs : List Balance,
      owesOf (ps.foldl (fun acc p => if payer = p.user then acc
          else applyPair acc payer p.user s) bs) d c
        = owesOf bs d c + (ps.map (fun p => if payer = p.user then 0
            else if d = p.user ∧ c = payer then s else 0)).sum := by
  induction ps with
  | nil => intro bs; simp
  | cons p ps ih =>
    intro bs
    simp only [List.foldl_cons, List.map_cons, List.sum_cons]
    by_cases hp : payer = p.user
    · rw [if_pos hp, if_pos hp, ih]; ring
    · rw [if_neg hp, if_neg hp, ih, owesOf_applyPair]; ring

theorem owedOf_foldParts (payer : ℕ) (s : ℚ) (d c : ℕ) (ps : List Participant) :
    ∀ bs : List Balance,
      owedOf (ps.foldl (fun acc p => if payer = p.user then acc
          else applyPair acc payer p.user s) bs) c d
        = owedOf bs c d + (ps.map (fun p => if payer = p.user then 0
            else if d = p.user ∧ c = payer then s else 0)).sum := by
  induction ps with
  | nil => intro bs; simp
  | cons p ps ih =>
    intro bs
    simp only [List.foldl_cons, List.map_cons, List.sum_cons]
    by_cases hp : payer = p.user
    · rw [if_pos hp, if_pos hp, ih]; ring
    · rw [if_neg hp, if_neg hp, ih, owedOf_applyPair]
      by_cases hd : d = p.user <;> by_cases hc : c = payer <;> (simp [hd, hc]; try ring)

theorem owesOf_applyExpense (bs : List Balance) (e : ExpenseDoc) (d c : ℕ) :
    owesOf (applyExpense bs e) d c = owesOf bs d c + pairContrib e d c :=
  owesOf_foldParts e.paidBy (share e) d c e.participants bs

theorem owedOf_applyExpense (bs : List Balance) (e : ExpenseDoc) (d c : ℕ) :
    owedOf (applyExpense bs e) c d = owedOf bs c d + pairContrib e d c :=
  owedOf_foldParts e.paidBy (share e) d c e.participants bs

theorem owesOf_reset (bs : List Balance) (d c : ℕ) :
    owesOf (bs.map resetRow) d c = 0 := by
  induction bs with
  | nil => rfl
  | cons b rest ih => by_cases h : b.user = d <;> simp [owesOf, owesAmt, resetRow, h, ih]

theorem owedOf_reset (bs : List Balance) (d c : ℕ) :
    owedOf (bs.map resetRow) c d = 0 := by
  induction bs with
  | nil => rfl
  | cons b rest ih => by_cases h : b.user = c <;> simp [owedOf, owedAmt, resetRow, h, ih]

theorem owesOf_foldExpenses (d c : ℕ) (es : List ExpenseDoc) :
    ∀ bs : List Balance,
      owesOf (es.foldl applyExpense bs) d c = owesOf bs d c + pairSum es d c := by
  induction es with
  | nil => intro bs; simp [pairSum]
  | cons e es ih =>
    intro bs
    simp only [List.foldl_cons]
    rw [ih, owesOf_applyExpense]
    simp [pairSum]
    ring

theorem owedOf_foldExpenses (d c : ℕ) (es : List ExpenseDoc) :
    ∀ bs : List Balance,
      owedOf (es.foldl applyExpense bs) c d = owedOf bs c d + pairSum es d c := by
  induction es with
  | nil => intro bs; simp [pairSum]
  | cons e es ih =>
    intro bs
    simp only [List.foldl_cons]
    rw [ih, owedOf_applyExpense]
    simp [pairSum]
    ring

/-- How much the recomputed table says debtor `d` owes creditor `c`: the
sum of the per-entry pair contributions (merged per ordered pair, never
duplicated). -/
theorem owesOf_calculateBalances (bs : List Balance) (es : List ExpenseDoc) (d c : ℕ) :
    owesOf (calculateBalances bs es) d c = pairSum es d c := by
  unfold calculateBalances
  rw [owesOf_foldExpenses, owesOf_reset, zero_add]

/-- The mirror `owed` edge carries exactly the same amount. -/
theorem owedOf_calculateBalances (bs : List Balance) (es : List ExpenseDoc) (d c : ℕ) :
    owedOf (calculateBalances bs es) c d = pairSum es d c := by
  unfold calculateBalances
  rw [owedOf_foldExpenses, owedOf_reset, zero_add]

/-! Transport of the contribution sums along permutations of the entry
set: list sums and `any` only depend on the multiset of entries. -/

theorem netSum_perm {es es2 : List ExpenseDoc} (h : List.Perm es es2) (u : ℕ) :
    netSum es u = netSum es2 u :=
  List.Perm.sum_eq (h.map _)

theorem pairSum_perm {es es2 : List ExpenseDoc} (h : List.Perm es es2) (d c : ℕ) :
    pairSum es d c = pairSum es2 d c :=
  List.Perm.sum_eq (h.map _)

theorem touched_perm {es es2 : List ExpenseDoc} (h : List.Perm es es2) (u : ℕ) :
    touched es u = touched es2 u := by
  unfold touched
  cases hx : es.any (fun e => touchedE e u) <;> cases hy : es2.any (fun e => touchedE e u)
  · rfl
  · rw [List.any_eq_true] at hy
    obtain ⟨e, he, ht⟩ := hy
    have : es.any (fun e => touchedE e u) = true :=
      List.any_eq_true.mpr ⟨e, h.mem_iff.mpr he, ht⟩
    rw [hx] at this
    exact absurd this (by simp)
  · rw [List.any_eq_true] at hx
    obtain ⟨e, he, ht⟩ := hx
    have : es2.any (fun e => touchedE e u) = true :=
      List.any_eq_true.mpr ⟨e, h.mem_iff.mp he, ht⟩
    rw [hy] at this
    exact absurd this (by simp)
  · rfl

/-! ## Lemmas: the document store and the post-save totals hook -/

theorem findG_replaceG (l : List GroupDoc) (g g0 : GroupDoc) (gid : ℕ)
    (hfind : findG l gid = some g0) (hid : g.id = gid) :
    findG (replaceG l g) gid = some g := by
  induction l with
  | nil => exact absurd hfind (by simp [findG])
  | cons a rest ih =>
    by_cases ha : a.id = gid
    · have hag : a.id = g.id := by rw [ha, hid]
      simp [findG, replaceG, ha, hag, hid]
    · have hag : ¬(a.id = g.id) := by rw [hid]; exact ha
      simp only [findG, if_neg ha] at hfind
      simp only [replaceG, List.map_cons, if_neg hag, findG, if_neg ha]
      exact ih hfind

theorem findE_replaceE (l : List ExpenseDoc) (e e0 : ExpenseDoc) (eid : ℕ)
    (hfind : findE l eid = some e0) (hid : e.id = eid) :
    findE (replaceE l e) eid = some e := by
  induction l with
  | nil => exact absurd hfind (by simp [findE])
  | cons a rest ih =>
    by_cases ha : a.id = eid
    · have hag : a.id = e.id := by rw [ha, hid]
      simp [findE, replaceE, ha, hag, hid]
    · have hag : ¬(a.id = e.id) := by rw [hid]; exact ha
      simp only [findE, if_neg ha] at hfind
      simp only [replaceE, List.map_cons, if_neg hag, findE, if_neg ha]
      exact ih hfind

theorem groups_putExpense (st : Store) (e : ExpenseDoc) :
    (putExpense st e).groups = st.groups := by
  unfold putExpense
  split <;> rfl

theorem users_putExpense (st : Store) (e : ExpenseDoc) :
    (putExpense st e).users = st.users := by
  unfold putExpense
  split <;> rfl

theorem expenses_saveGroup (st : Store) (g : GroupDoc) :
    (saveGroup st g).expenses = st.expenses := rfl

theorem expenses_putExpense_found (st : Store) (e e0 : ExpenseDoc)
    (hfind : findE st.expenses e.id = some e0) :
    (putExpense st e).expenses = replaceE st.expenses e := by
  unfold putExpense
  rw [hfind]

/-- Replacing an id that does not occur leaves the list unchanged. -/
theorem replaceE_not_mem (l : List ExpenseDoc) (e : ExpenseDoc)
    (h : ∀ x ∈ l, x.id ≠ e.id) : replaceE l e = l := by
  induction l with
  | nil => rfl
  | cons a rest ih =>
    have ha : ¬(a.id = e.id) := h a (by simp)
    simp only [replaceE, List.map_cons, if_neg ha]
    rw [show List.map (fun x => if x.id = e.id then e else x) rest = replaceE rest e from rfl,
        ih (fun x hx => h x (by simp [hx]))]

/-- Flipping one stored unsettled expense to a settled copy of itself (same
id, group and amount) raises the derived settled total by exactly that
amount — the heart of the exactly-once property of the totals hook. -/
theorem settledSumL_replaceE (l : List ExpenseDoc) (e e2 : ExpenseDoc)
    (hnd : (l.map ExpenseDoc.id).Nodup)
    (hfind : findE l e.id = some e)
    (hid : e2.id = e.id) (hgrp : e2.group = e.group) (hamt : e2.amount = e.amount)
    (hold : e.settled = false) (hnew : e2.settled = true) :
    settledSumL (replaceE l e2) e.group = settledSumL l e.group + e.amount := by
  induction l with
  | nil => exact absurd hfind (by simp [findE])
  | cons a rest ih =>
    rw [List.map_cons, List.nodup_cons] at hnd
    by_cases ha : a.id = e.id
    · simp only [findE, if_pos ha, Option.some.injEq] at hfind
      subst hfind
      have hrest : replaceE rest e2 = rest := by
        refine replaceE_not_mem rest e2 (fun x hx hxe => ?_)
        exact hnd.1 (by rw [← hid, ← hxe]; exact List.mem_map_of_mem ExpenseDoc.id hx)
      have hae2 : a.id = e2.id := by rw [ha, hid]
      simp only [replaceE, List.map_cons, if_pos hae2]
      rw [show List.map (fun x => if x.id = e2.id then e2 else x) rest = replaceE rest e2 from rfl,
          hrest]
      simp only [settledSumL, hgrp, hamt, hnew, hold]
      simp
      ring
    · simp only [findE, if_neg ha] at hfind
      simp only [replaceE, List.map_cons]
      have hae2 : ¬(a.id = e2.id) := by rw [hid]; exact ha
      rw [if_neg hae2,
          show List.map (fun x => if x.id = e2.id then e2 else x) rest = replaceE rest e2 from rfl]
      simp only [settledSumL]
      rw [ih hnd.2 hfind]
      ring

theorem findG_id (l : List GroupDoc) (gid : ℕ) (g : GroupDoc)
    (h : findG l gid = some g) : g.id = gid := by
  induction l with
  | nil => exact absurd h (by simp [findG])
  | cons a rest ih =>
    by_cases ha : a.id = gid
    · simp only [findG, if_pos ha, Option.some.injEq] at h
      rw [← h]; exact ha
    · simp only [findG, if_neg ha] at h
      exact ih h

/-- What the post-save hook does to the owning group when it is present:
its totals are re-derived from the stored expenses. -/
theorem findGroup_postSaveExpense (st : Store) (e2 : ExpenseDoc) (g2 : GroupDoc)
    (hg2 : findGroup st e2.group = some g2) :
    findGroup (postSaveExpense st e2) e2.group
      = some { g2 with
          totalExpenses := amountSumL st.expenses e2.group,
          totalSettled := settledSumL st.expenses e2.group,
          expenses := if e2.id ∈ g2.expenses then g2.expenses else g2.expenses ++ [e2.id] } := by
  unfold postSaveExpense
  rw [hg2]
  exact findG_replaceG st.groups _ g2 e2.group hg2 (findG_id st.groups e2.group g2 hg2)

/-- Saving a settled copy of a stored unsettled expense leaves the owning
group's derived `totalSettled` exactly one expense-amount higher. -/
theorem saveExpenseNoCalc_totalSettled (st : Store) (e e2 : ExpenseDoc) (g2 : GroupDoc)
    (hid : e2.id = e.id) (hgrp : e2.group = e.group) (hamt : e2.amount = e.amount)
    (hnew : e2.settled = true) (hold : e.settled = false)
    (hnd : (st.expenses.map ExpenseDoc.id).Nodup)
    (he : findE st.expenses e.id = some e)
    (hg2 : findG st.groups e.group = some g2) :
    (findGroup (saveExpenseNoCalc st e2) e.group).map GroupDoc.totalSettled
      = some (settledSumL st.expenses e.group + e.amount) := by
  unfold saveExpenseNoCalc
  have hfe2 : findE st.expenses e2.id = some e := by rw [hid]; exact he
  have hput : (putExpense st e2).expenses = replaceE st.expenses e2 :=
    expenses_putExpense_found st e2 e hfe2
  have hg2p : findGroup (putExpense st e2) e2.group = some g2 := by
    unfold findGroup
    rw [groups_putExpense, hgrp]
    exact hg2
  rw [← hgrp, findGroup_postSaveExpense _ _ _ hg2p]
  simp only [Option.map_some']
  rw [hput, hgrp]
  exact congrArg some
    (congrArg (· + e.amount) rfl ▸
      settledSumL_replaceE st.expenses e e2 hnd he hid hgrp hamt hold hnew)

theorem settleExpense_totalSettled (st : Store) (e : ExpenseDoc) (g : GroupDoc)
    (settler : ℕ) (sl : List SettlementRec)
    (hnd : (st.expenses.map ExpenseDoc.id).Nodup)
    (he : findExpense st e.id = some e)
    (hg : findGroup st e.group = some g)
    (hunsettled : e.settled = false)
    (hinv : g.totalSettled = settledSum st e.group) :
    (findGroup (settleExpense st e settler sl) e.group).map GroupDoc.totalSettled
      = some (g.totalSettled + e.amount) := by
  have hgid : g.id = e.group := findG_id st.groups e.group g hg
  simp only [settleExpense, hg]
  have haux := saveExpenseNoCalc_totalSettled
    (saveGroup st { g with totalSettled := g.totalSettled + e.amount, balances := calculateBalances g.balances (unsettledExpenses st e.group) })
    e
    { e with settled := true, settledBy := some settler, settlements := if sl.length > 0 then sl else e.settlements }
    { g with totalSettled := g.totalSettled + e.amount, balances := calculateBalances g.balances (unsettledExpenses st e.group) }
    rfl rfl rfl rfl hunsettled hnd he
    (findG_replaceG st.groups _ g e.group hg hgid)
  rw [haux, hinv]
  rfl

theorem addSettlement_totalSettled (st : Store) (e : ExpenseDoc) (g : GroupDoc)
    (f t : ℕ) (amt : ℚ) (method : String)
    (hnd : (st.expenses.map ExpenseDoc.id).Nodup)
    (he : findExpense st e.id = some e)
    (hg : findGroup st e.group = some g)
    (hunsettled : e.settled = false)
    (hinv : g.totalSettled = settledSum st e.group)
    (htot : ((e.settlements ++ [({ from_ := f, to_ := t, amount := amt, method := method } : SettlementRec)]).map SettlementRec.amount).sum ≥ e.amount) :
    (findGroup (addSettlement st e f t amt method) e.group).map GroupDoc.totalSettled
      = some (g.totalSettled + e.amount) := by
  simp only [addSettlement]
  rw [if_pos htot]
  have haux := saveExpenseNoCalc_totalSettled st e
    { e with settlements := e.settlements ++ [({ from_ := f, to_ := t, amount := amt, method := method } : SettlementRec)], settled := true }
    g rfl rfl rfl rfl hunsettled hnd he hg
  rw [haux, hinv]
  rfl

theorem expenses_postSaveExpense (st : Store) (e : ExpenseDoc) :
    (postSaveExpense st e).expenses = st.expenses := by
  unfold postSaveExpense
  split <;> rfl

theorem users_postSaveExpense (st : Store) (e : ExpenseDoc) :
    (postSaveExpense st e).users = st.users := by
  unfold postSaveExpense
  split <;> rfl

/-- After a no-recalculation save, looking the expense up returns exactly
the saved document. -/
theorem findExpense_saveExpenseNoCalc (st : Store) (e e2 : ExpenseDoc)
    (hid : e2.id = e.id) (he : findExpense st e.id = some e) :
    findExpense (saveExpenseNoCalc st e2) e.id = some e2 := by
  unfold saveExpenseNoCalc findExpense
  rw [expenses_postSaveExpense]
  have hfe2 : findE st.expenses e2.id = some e := by rw [hid]; exact he
  rw [expenses_putExpense_found st e2 e hfe2]
  exact findE_replaceE st.expenses e2 e e.id he hid

/-- `addSettlement` appends exactly the supplied settlement record to the
expense — whether or not the expense was (or becomes) settled. -/
theorem addSettlement_settlements (st : Store) (e : ExpenseDoc) (f t : ℕ)
    (amt : ℚ) (method : String) (he : findExpense st e.id = some e) :
    (findExpense (addSettlement st e f t amt method) e.id).map ExpenseDoc.settlements
      = some (e.settlements ++ [{ from_ := f, to_ := t, amount := amt, method := method }]) := by
  simp only [addSettlement]
  split
  · rw [findExpense_saveExpenseNoCalc st e { e with settlements := e.settlements ++ [{ from_ := f, to_ := t, amount := amt, method := method }], settled := true } rfl he]
    rfl
  · rw [findExpense_saveExpenseNoCalc st e { e with settlements := e.settlements ++ [{ from_ := f, to_ := t, amount := amt, method := method }] } rfl he]
    rfl

/-! Lemmas for `removeMember`: the member's row disappears, every edge
referencing them disappears, every other member's net balance is
untouched. -/

/-- The balance-table transformation `removeMember` performs. -/
def stripBalances (bs : List Balance) (uid : ℕ) : List Balance :=
  (bs.filter (fun b => b.user != uid)).map
    (fun b => { b with owes := b.owes.filter (fun o => o.to_ != uid),
                       owed := b.owed.filter (fun o => o.from_ != uid) })

theorem hasRow_stripBalances (bs : List Balance) (uid : ℕ) :
    hasRow (stripBalances bs uid) uid = false := by
  induction bs with
  | nil => rfl
  | cons b rest ih =>
    by_cases hbu : b.user = uid
    · have hb : (b.user != uid) = false := by simp [hbu]
      simpa [stripBalances, List.filter_cons, hb] using ih
    · have hb : (b.user != uid) = true := by simp [hbu]
      simpa [stripBalances, List.filter_cons, hb, hasRow, hbu] using ih

theorem netOf_stripBalances (bs : List Balance) (uid v : ℕ) (hvu : v ≠ uid) :
    netOf (stripBalances bs uid) v = netOf bs v := by
  induction bs with
  | nil => rfl
  | cons b rest ih =>
    by_cases hbu : b.user = uid
    · have hb : (b.user != uid) = false := by simp [hbu]
      have hbv : ¬(b.user = v) := by rw [hbu]; exact fun h => hvu h.symm
      simpa [stripBalances, List.filter_cons, hb, netOf, hbv] using ih
    · have hb : (b.user != uid) = true := by simp [hbu]
      by_cases hbv : b.user = v
      · simp [stripBalances, List.filter_cons, hb, netOf, hbv, hvu]
      · simpa [stripBalances, List.filter_cons, hb, netOf, hbv, hvu] using ih

theorem edges_stripBalances (bs : List Balance) (uid : ℕ) :
    ∀ b ∈ stripBalances bs uid,
      (∀ o ∈ b.owes, o.to_ ≠ uid) ∧ (∀ o ∈ b.owed, o.from_ ≠ uid) := by
  intro b hb
  unfold stripBalances at hb
  obtain ⟨b0, _, hmap⟩ := List.mem_map.mp hb
  constructor
  · intro o ho
    rw [← hmap] at ho
    simp only at ho
    have := (List.mem_filter.mp ho).2
    simpa using this
  · intro o ho
    rw [← hmap] at ho
    simp only at ho
    have := (List.mem_filter.mp ho).2
    simpa using this

/-- Inverting a successful `removeMember`: the resulting balance table is
exactly the stripped one. -/
theorem removeMember_balances (g : GroupDoc) (uid remover : ℕ) (g2 : GroupDoc)
    (h : removeMember g uid remover = .ok g2) :
    g2.balances = stripBalances g.balances uid := by
  unfold removeMember at h
  split at h
  · exact absurd h (by simp)
  · rw [Except.ok.injEq] at h
    rw [← h]
    rfl

/-! ## Concrete fixtures for counterexamples and witnesses -/

/-- A group of members 1 and 2 in which 2 owes 1 thirty units. -/
def gAB : GroupDoc :=
  { id := 5, name := "trip", createdBy := 1,
    members := [{ user := 1, role := "admin", isActive := true },
                { user := 2, role := "member", isActive := true }],
    expenses := [], isActive := true, totalExpenses := 30, totalSettled := 0,
    balances := [{ user := 1, balance := 30, owes := [], owed := [{ from_ := 2, amount := 30 }] },
                 { user := 2, balance := -30, owes := [{ to_ := 1, amount := 30 }], owed := [] }],
    activityLog := [] }

/-- The group state `removeMember gAB 2 1` produces. -/
def gABr : GroupDoc :=
  { id := 5, name := "trip", createdBy := 1,
    members := [{ user := 1, role := "admin", isActive := true }],
    expenses := [], isActive := true, totalExpenses := 30, totalSettled := 0,
    balances := [{ user := 1, balance := 30, owes := [], owed := [] }],
    activityLog := [{ action := "MEMBER_REMOVED", performedBy := 1 }] }

/-- A group knowing only member 1 (and only a balance row for 1). -/
def gUk : GroupDoc :=
  { id := 6, name := "g", createdBy := 1,
    members := [{ user := 1, role := "admin", isActive := true }],
    expenses := [41], isActive := true, totalExpenses := 30, totalSettled := 0,
    balances := [{ user := 1, balance := 0, owes := [], owed := [] }],
    activityLog := [] }

/-- An unsettled expense of group 6 naming the unknown user 99. -/
def eUk : ExpenseDoc :=
  { id := 41, description := "x", amount := 30, paidBy := 1,
    participants := [{ user := 1, share := 0, shareType := "equal" },
                     { user := 99, share := 0, shareType := "equal" }],
    group := 6, splitMethod := "equal", settled := false, settledBy := none,
    settlements := [], createdBy := 1, editHistory := [] }

/-- Two zero balance rows for members 1 and 2. -/
def bs12 : List Balance :=
  [{ user := 1, balance := 0, owes := [], owed := [] },
   { user := 2, balance := 0, owes := [], owed := [] }]

/-- An exact-split expense: amount 30, payer 1's stored share 10, member
2's stored share 20 (valid, since 10 + 20 = 30). -/
def eExact : ExpenseDoc :=
  { id := 31, description := "x", amount := 30, paidBy := 1,
    participants := [{ user := 1, share := 10, shareType := "exact" },
                     { user := 2, share := 20, shareType := "exact" }],
    group := 9, splitMethod := "exact", settled := false, settledBy := none,
    settlements := [], createdBy := 1, editHistory := [] }

/-- Equal split of 100.00 among three participants. -/
def e100 : ExpenseDoc :=
  { id := 51, description := "x", amount := 100, paidBy := 1,
    participants := [{ user := 1, share := 0, shareType := "equal" },
                     { user := 2, share := 0, shareType := "equal" },
                     { user := 3, share := 0, shareType := "equal" }],
    group := 9, splitMethod := "equal", settled := false, settledBy := none,
    settlements := [], createdBy := 1, editHistory := [] }

/-- What `calculateShares` turns `e100` into: 33.33 each. -/
def e100r : ExpenseDoc :=
  { e100 with participants := [{ user := 1, share := 3333/100, shareType := "equal" },
                               { user := 2, share := 3333/100, shareType := "equal" },
                               { user := 3, share := 3333/100, shareType := "equal" }] }

/-- Exact split of 50.00 whose shares sum to 49.99 (deviation 0.01). -/
def eTolOk : ExpenseDoc :=
  { id := 61, description := "x", amount := 50, paidBy := 1,
    participants := [{ user := 1, share := 20, shareType := "exact" },
                     { user := 2, share := 20, shareType := "exact" },
                     { user := 3, share := 999/100, shareType := "exact" }],
    group := 9, splitMethod := "exact", settled := false, settledBy := none,
    settlements := [], createdBy := 1, editHistory := [] }

/-- Exact split of 50.00 whose shares sum to 49.98 (deviation 0.02). -/
def eTolBad : ExpenseDoc :=
  { id := 62, description := "x", amount := 50, paidBy := 1,
    participants := [{ user := 1, share := 20, shareType := "exact" },
                     { user := 2, share := 20, shareType := "exact" },
                     { user := 3, share := 499/50, shareType := "exact" }],
    group := 9, splitMethod := "exact", settled := false, settledBy := none,
    settlements := [], createdBy := 1, editHistory := [] }

/-- An empty document store. -/
def stEmpty : Store := { groups := [], expenses := [], users := [] }

/-- A group holding the already-settled expense `eSet`. -/
def gSet : GroupDoc :=
  { id := 7, name := "g", createdBy := 1,
    members := [{ user := 1, role := "admin", isActive := true },
                { user := 2, role := "member", isActive := true }],
    expenses := [11], isActive := true, totalExpenses := 40, totalSettled := 40,
    balances := [], activityLog := [] }

/-- A settled expense of group 7 with one recorded settlement. -/
def eSet : ExpenseDoc :=
  { id := 11, description := "d", amount := 40, paidBy := 1,
    participants := [{ user := 1, share := 20, shareType := "equal" },
                     { user := 2, share := 20, shareType := "equal" }],
    group := 7, splitMethod := "equal", settled := true, settledBy := some 1,
    settlements := [{ from_ := 2, to_ := 1, amount := 40, method := "cash" }],
    createdBy := 1, editHistory := [] }

/-- Store with the settled expense `eSet`. -/
def stSet : Store := { groups := [gSet], expenses := [eSet], users := [] }

/-- A group with one not-yet-settled expense `ePend` and consistent
(zero) settled counter. -/
def gPend : GroupDoc :=
  { id := 8, name := "g", createdBy := 1,
    members := [{ user := 1, role := "admin", isActive := true },
                { user := 2, role := "member", isActive := true }],
    expenses := [21], isActive := true, totalExpenses := 10, totalSettled := 0,
    balances := [{ user := 1, balance := 5, owes := [], owed := [{ from_ := 2, amount := 5 }] },
                 { user := 2, balance := -5, owes := [{ to_ := 1, amount := 5 }], owed := [] }],
    activityLog := [] }

/-- The unsettled expense of group 8: amount 10, payer 1, equal split. -/
def ePend : ExpenseDoc :=
  { id := 21, description := "d", amount := 10, paidBy := 1,
    participants := [{ user := 1, share := 5, shareType := "equal" },
                     { user := 2, share := 5, shareType := "equal" }],
    group := 8, splitMethod := "equal", settled := false, settledBy := none,
    settlements := [], createdBy := 1, editHistory := [] }

/-- Store with the pending expense `ePend`. -/
def stPend : Store := { groups := [gPend], expenses := [ePend], users := [] }

/-- A clean group (creator 1, no unsettled expenses) referenced from user
2's membership list. -/
def gClean : GroupDoc :=
  { id := 4, name := "g", createdBy := 1,
    members := [{ user := 1, role := "admin", isActive := true }],
    expenses := [], isActive := true, totalExpenses := 0, totalSettled := 0,
    balances := [], activityLog := [] }

def stClean : Store :=
  { groups := [gClean], expenses := [],
    users := [{ id := 1, groups := [4] }, { id := 2, groups := [4, 9] }] }

/-- Two unsettled expenses used to exercise order-independence: 1 paid 10
for {1, 2}; 2 paid 6 for {1, 2, 3}. -/
def ePerm1 : ExpenseDoc :=
  { id := 71, description := "a", amount := 10, paidBy := 1,
    participants := [{ user := 1, share := 5, shareType := "equal" },
                     { user := 2, share := 5, shareType := "equal" }],
    group := 9, splitMethod := "equal", settled := false, settledBy := none,
    settlements := [], createdBy := 1, editHistory := [] }

def ePerm2 : ExpenseDoc :=
  { id := 72, description := "b", amount := 6, paidBy := 2,
    participants := [{ user := 1, share := 2, shareType := "equal" },
                     { user := 2, share := 2, shareType := "equal" },
                     { user := 3, share := 2, shareType := "equal" }],
    group := 9, splitMethod := "equal", settled := false, settledBy := none,
    settlements := [], createdBy := 1, editHistory := [] }

/-! ## Claim theorems -/

/-- C1 (counterexample): the zero-sum invariant does not survive every
operation.  Removing member 2 from `gAB` — where 2 owes 1 thirty units —
deletes 2's balance row without adjusting 1's net balance, leaving the
table summing to 30, not 0. -/
theorem removeMember_breaks_zero_sum :
    removeMember gAB 2 1 = Except.ok gABr
    ∧ sumNet gAB.balances = 0
    ∧ sumNet gABr.balances = 30
    ∧ (30 : ℚ) ≠ 0 := by
  refine ⟨rfl, ?_, ?_, by norm_num⟩
  · norm_num [gAB, sumNet]
  · norm_num [gABr, sumNet]

/-- C1 (amended): whenever the balance table is the result of a balance
recompute (`calculateBalances`) — which every expense create/update/delete,
settle and balance-read path ends in — the sum of all members' net
balances is exactly zero, for any starting table and any entry set.
Member removal, which edits the table without recomputing, is the
exception exhibited by the counterexample. -/
theorem recompute_zero_sum (bs : List Balance) (es : List ExpenseDoc) :
    sumNet (calculateBalances bs es) = 0 :=
  sumNet_calculateBalances bs es

/-- C2 (counterexample): the balance recompute ignores the stored shares.
For the valid exact-split expense `eExact` (amount 30, member 2's stored
share 20), the recomputed debt of 2 to 1 is 15 = 30 / 2, not the stored
share 20. -/
theorem recompute_ignores_stored_shares :
    owesOf (calculateBalances bs12 [eExact]) 2 1 = 15
    ∧ ((eExact.participants.find? (fun p => p.user == 2)).map Participant.share) = some 20
    ∧ (15 : ℚ) ≠ 20 := by
  refine ⟨?_, rfl, by norm_num⟩
  rw [owesOf_calculateBalances]
  norm_num [pairSum, pairContrib, share, eExact]

/-- C2 (amended): for every group and entry set, the recompute gives the
ordered pair (debtor `d`, creditor `c`) the merged amount
`pairSum es d c`: each unsettled entry contributes
`amount / participants.length` — equal division by head-count, whatever
the split policy or the stored shares say — once for every participant
other than the payer, and the payer's mirror `owed` edge always carries
exactly the same amount. -/
theorem recompute_pair_amounts (bs : List Balance) (es : List ExpenseDoc) (d c : ℕ) :
    owesOf (calculateBalances bs es) d c = pairSum es d c
    ∧ owedOf (calculateBalances bs es) c d = pairSum es d c :=
  ⟨owesOf_calculateBalances bs es d c, owedOf_calculateBalances bs es d c⟩

/-- C3: the equal-split calculator rounds each share to
`round2 (amount / n)` with no residual correction, so for amount 100.00
split among 3 each share is 33.33 and the shares sum to 99.99 ≠ 100.00 —
the code fails the spec's mandated exact-sum property at this input. -/
theorem equal_split_rounding_drift :
    calculateShares e100 = Except.ok e100r
    ∧ sharesSum e100r = 9999/100
    ∧ e100.amount = 100
    ∧ (9999/100 : ℚ) ≠ 100 := by
  refine ⟨?_, ?_, rfl, by norm_num⟩
  · have h : round2 (e100.amount / (e100.participants.length : ℚ)) = 3333/100 := by
      show round2 (100/3 : ℚ) = 3333/100
      unfold round2 jround
      have h2 : ⌊(100:ℚ)/3 * 100 + 1/2⌋ = (3333 : ℤ) := by
        rw [Int.floor_eq_iff]
        norm_num
      rw [h2]
      norm_num
    unfold calculateShares
    norm_num [h]
    rfl
  · norm_num [e100r, e100, sharesSum]

/-- C4: for an exact-split expense with participants, share computation
succeeds (returning the document unchanged) exactly when the supplied
shares deviate from the amount by at most one minor unit (0.01); when the
deviation exceeds that, saving a new expense fails with `ShareMismatch`
and the store is unchanged. -/
theorem exact_split_tolerance (st : Store) (e : ExpenseDoc)
    (hm : e.splitMethod = "exact") (hne : e.participants ≠ []) :
    (calculateShares e = .ok e ↔ |sharesSum e - e.amount| ≤ 1/100)
    ∧ (|sharesSum e - e.amount| > 1/100 →
        saveNewExpense st e = (.error .shareMismatch, st)) := by
  have herr : ∀ _ : |sharesSum e - e.amount| > 1/100,
      calculateShares e = .error .shareMismatch := fun h => by
    unfold calculateShares
    rw [if_neg (by simpa [List.length_eq_zero] using hne), hm, if_pos h]
    rfl
  have hok : ∀ _ : ¬(|sharesSum e - e.amount| > 1/100),
      calculateShares e = .ok e := fun h => by
    unfold calculateShares
    rw [if_neg (by simpa [List.length_eq_zero] using hne), hm, if_neg h]
    rfl
  refine ⟨⟨fun hcalc => ?_, fun hle => hok (not_lt.mpr hle)⟩, fun hgt => ?_⟩
  · by_contra hgt
    rw [not_le] at hgt
    rw [herr hgt] at hcalc
    exact absurd hcalc (by simp)
  · unfold saveNewExpense saveExpenseWithCalc
    rw [herr hgt]

/-- C4 (witness): the boundary cases.  Deviation exactly 0.01 (shares
20 + 20 + 9.99 against amount 50) passes; deviation 0.02 (shares
20 + 20 + 9.98) fails with `ShareMismatch`, persisting nothing. -/
theorem exact_split_tolerance_witness :
    calculateShares eTolOk = .ok eTolOk
    ∧ saveNewExpense stEmpty eTolBad = (.error .shareMismatch, stEmpty) := by
  constructor
  · exact (exact_split_tolerance stEmpty eTolOk rfl (by decide)).1.mpr
      (by norm_num [sharesSum, eTolOk, abs_le])
  · refine (exact_split_tolerance stEmpty eTolBad rfl (by decide)).2 ?_
    have habs : |sharesSum eTolBad - eTolBad.amount| = 1/50 := by
      rw [abs_sub_comm, abs_of_nonneg (by norm_num [sharesSum, eTolBad])]
      norm_num [sharesSum, eTolBad]
    rw [habs]
    norm_num

/-- C5 (counterexample): adding a settlement to an *already settled*
expense does not fail.  In `stSet` expense 11 is settled, yet the
add-settlement route succeeds and appends a second settlement record. -/
theorem addSettlement_not_guarded_by_settled :
    (findExpense stSet 11).map ExpenseDoc.settled = some true
    ∧ (addSettlementRoute stSet 1 11 2 1 5 "cash").1 = .ok ()
    ∧ ((findExpense (addSettlementRoute stSet 1 11 2 1 5 "cash").2 11).map
        (fun e => e.settlements.length)) = some 2 := by
  refine ⟨rfl, ?_, ?_⟩
  · norm_num [addSettlementRoute, stSet, eSet, gSet, findExpense, findGroup, findE, findG,
      isActiveMember]
  · norm_num [addSettlementRoute, stSet, eSet, gSet, findExpense, findGroup, findE, findG,
      isActiveMember, addSettlement, saveExpenseNoCalc, putExpense, postSaveExpense,
      replaceE, saveGroup, replaceG, amountSumL, settledSumL]

/-- C5 (amended): on a settled expense, update, delete and bulk settle
all fail (`ExpenseAlreadySettled` / `AlreadySettled`) leaving the store
exactly as it was; the add-settlement operation, however, has no settled
guard: for an authorised caller it succeeds and appends the settlement
record to the settled expense. -/
theorem settled_expense_guards (st : Store) (e : ExpenseDoc) (g : GroupDoc)
    (caller : ℕ) (u : ExpenseUpdates) (sl : List SettlementRec)
    (f t : ℕ) (amt : ℚ) (method : String)
    (he : findExpense st e.id = some e) (hs : e.settled = true) :
    updateExpenseRoute st caller e.id u = (.error .expenseAlreadySettled, st)
    ∧ deleteExpenseRoute st caller e.id = (.error .expenseAlreadySettled, st)
    ∧ settleRoute st caller e.id sl = (.error .alreadySettled, st)
    ∧ (findGroup st e.group = some g → isActiveMember g caller = true →
        (f = caller ∨ t = caller) → amt ≥ 1/100 →
        addSettlementRoute st caller e.id f t amt method
          = (.ok (), addSettlement st e f t amt method)
        ∧ (findExpense (addSettlement st e f t amt method) e.id).map ExpenseDoc.settlements
            = some (e.settlements ++ [{ from_ := f, to_ := t, amount := amt, method := method }])) := by
  refine ⟨?_, ?_, ?_, fun hg hmem hparty hamt => ⟨?_, addSettlement_settlements st e f t amt method he⟩⟩
  · simp [updateExpenseRoute, he, hs]
  · simp [deleteExpenseRoute, he, hs]
  · simp [settleRoute, he, hs]
  · have hparty2 : (f == caller || t == caller) = true := by
      rcases hparty with h | h <;> simp [h]
    rw [ge_iff_le, one_div] at hamt
    simp [addSettlementRoute, he, hg, hmem, hparty2, hamt]

/-- C5 (witness): the guards at work on the settled expense of `stSet`. -/
theorem settled_expense_guards_witness :
    updateExpenseRoute stSet 2 11 { description := none, amount := none, participants := none, splitMethod := none } = (.error .expenseAlreadySettled, stSet)
    ∧ settleRoute stSet 2 11 [] = (.error .alreadySettled, stSet) := by
  have h := settled_expense_guards stSet eSet gSet 2 { description := none, amount := none, participants := none, splitMethod := none } [] 2 1 5 "cash" rfl rfl
  exact ⟨h.1, h.2.2.1⟩

/-- C6: when a previously-unsettled expense becomes settled — by the bulk
`settle` method or by an `addSettlement` whose running total reaches the
amount — the owning group's `totalSettled` ends up exactly one expense
amount higher, provided it was consistent (equal to the derived settled
sum) before.  The manual `+=` inside `settle` is overwritten by the
post-save hook's from-scratch recomputation, so the counter is neither
skipped nor double-counted. -/
theorem totalSettled_incremented_exactly_once
    (st : Store) (e : ExpenseDoc) (g : GroupDoc) (settler : ℕ) (sl : List SettlementRec)
    (f t : ℕ) (amt : ℚ) (method : String)
    (hnd : (st.expenses.map ExpenseDoc.id).Nodup)
    (he : findExpense st e.id = some e)
    (hg : findGroup st e.group = some g)
    (hunsettled : e.settled = false)
    (hinv : g.totalSettled = settledSum st e.group) :
    ((findGroup (settleExpense st e settler sl) e.group).map GroupDoc.totalSettled
        = some (g.totalSettled + e.amount))
    ∧ (((e.settlements ++ [({ from_ := f, to_ := t, amount := amt, method := method } : SettlementRec)]).map SettlementRec.amount).sum ≥ e.amount →
        (findGroup (addSettlement st e f t amt method) e.group).map GroupDoc.totalSettled
          = some (g.totalSettled + e.amount)) :=
  ⟨settleExpense_totalSettled st e g settler sl hnd he hg hunsettled hinv,
   fun htot => addSettlement_totalSettled st e g f t amt method hnd he hg hunsettled hinv htot⟩

/-- C6 (witness): settling the pending expense of `stPend` (amount 10,
counter at 0), and the auto-settling addSettlement of 10, both leave the
group's settled counter at exactly 0 + 10. -/
theorem totalSettled_incremented_exactly_once_witness :
    ((findGroup (settleExpense stPend ePend 1 []) ePend.group).map GroupDoc.totalSettled
        = some (gPend.totalSettled + ePend.amount))
    ∧ ((findGroup (addSettlement stPend ePend 2 1 10 "cash") ePend.group).map GroupDoc.totalSettled
        = some (gPend.totalSettled + ePend.amount)) := by
  have h := totalSettled_incremented_exactly_once stPend ePend gPend 1 [] 2 1 10 "cash"
    (by decide) rfl rfl rfl (by norm_num [gPend, settledSum, stPend, settledSumL, ePend])
  exact ⟨h.1, h.2 (by norm_num [ePend])⟩

/-- C7: balance recomputation is a function of the unsettled-entry set
only, with tables compared as the mappings the spec defines them to be
(row presence, net balance per member, owes/owed amount per ordered
pair).  Recomputing from any permutation of the entry set yields the same
table, and recomputing again on top of a recomputed table changes
nothing. -/
theorem recompute_order_independent_idempotent
    (bs : List Balance) (es es2 : List ExpenseDoc) (h : List.Perm es es2) :
    (∀ u, netOf (calculateBalances bs es) u = netOf (calculateBalances bs es2) u)
    ∧ (∀ u, hasRow (calculateBalances bs es) u = hasRow (calculateBalances bs es2) u)
    ∧ (∀ d c, owesOf (calculateBalances bs es) d c = owesOf (calculateBalances bs es2) d c
            ∧ owedOf (calculateBalances bs es) c d = owedOf (calculateBalances bs es2) c d)
    ∧ (∀ u, netOf (calculateBalances (calculateBalances bs es) es) u
            = netOf (calculateBalances bs es) u)
    ∧ (∀ u, hasRow (calculateBalances (calculateBalances bs es) es) u
            = hasRow (calculateBalances bs es) u)
    ∧ (∀ d c, owesOf (calculateBalances (calculateBalances bs es) es) d c
            = owesOf (calculateBalances bs es) d c
            ∧ owedOf (calculateBalances (calculateBalances bs es) es) c d
            = owedOf (calculateBalances bs es) c d) := by
  refine ⟨fun u => ?_, fun u => ?_, fun d c => ⟨?_, ?_⟩, fun u => ?_, fun u => ?_,
    fun d c => ⟨?_, ?_⟩⟩
  · rw [netOf_calculateBalances, netOf_calculateBalances, netSum_perm h]
  · rw [hasRow_calculateBalances, hasRow_calculateBalances, touched_perm h]
  · rw [owesOf_calculateBalances, owesOf_calculateBalances, pairSum_perm h]
  · rw [owedOf_calculateBalances, owedOf_calculateBalances, pairSum_perm h]
  · rw [netOf_calculateBalances, netOf_calculateBalances]
  · rw [hasRow_calculateBalances, hasRow_calculateBalances]
    cases hasRow bs u <;> cases touched es u <;> rfl
  · rw [owesOf_calculateBalances, owesOf_calculateBalances]
  · rw [owedOf_calculateBalances, owedOf_calculateBalances]

/-- C7 (witness): swapping the two concrete entries `ePerm1`, `ePerm2`
leaves member 1's recomputed net balance unchanged. -/
theorem recompute_order_independent_witness :
    netOf (calculateBalances [] [ePerm1, ePerm2]) 1
      = netOf (calculateBalances [] [ePerm2, ePerm1]) 1 :=
  (recompute_order_independent_idempotent [] [ePerm1, ePerm2] [ePerm2, ePerm1]
    (List.Perm.swap ePerm2 ePerm1 [])).1 1

/-- C8 (counterexample): a recompute entry whose participant is not a
known group member is *not* skipped: replaying `eUk` (participant 99,
unknown to group `gUk`) creates a fresh balance row for 99 carrying a
non-zero debt. -/
theorem recompute_creates_rows_for_unknown_users :
    isActiveMember gUk 99 = false
    ∧ (gUk.members.all (fun m => m.user != 99)) = true
    ∧ hasRow (recomputeBalances gUk [eUk]).balances 99 = true
    ∧ netOf (recomputeBalances gUk [eUk]).balances 99 = -15 := by
  refine ⟨rfl, rfl, rfl, ?_⟩
  show netOf (calculateBalances gUk.balances [eUk]) 99 = -15
  rw [netOf_calculateBalances]
  norm_num [netSum, netContrib, share, eUk]

/-- C8 (amended): balance recomputation is total — it is a plain function
producing a table for every input — but an entry referencing an unknown
payer or participant is not skipped: it contributes exactly like any
other entry, and a user the incoming table does not know gets a
zero-initialised row whenever some entry touches them (nothing is
logged). -/
theorem recompute_total_and_unguarded (bs : List Balance) (es : List ExpenseDoc) (u : ℕ) :
    hasRow (calculateBalances bs es) u = (hasRow bs u || touched es u)
    ∧ netOf (calculateBalances bs es) u = netSum es u :=
  ⟨hasRow_calculateBalances bs es u, netOf_calculateBalances bs es u⟩

/-- C9 (counterexample): removing member 2 from `gAB`, where 2 owed 1
thirty units, leaves member 1's net balance at 30 — it does *not*
decrease by the abandoned 30 (which would give 0). -/
theorem removeMember_keeps_counterparty_net :
    removeMember gAB 2 1 = Except.ok gABr
    ∧ netOf gAB.balances 1 = 30
    ∧ netOf gABr.balances 1 = 30
    ∧ (30 : ℚ) ≠ 0 := by
  refine ⟨rfl, ?_, ?_, by norm_num⟩
  · norm_num [gAB, netOf]
  · norm_num [gABr, netOf]

/-- C9 (amended): a successful removal purges the removed member's
balance row and strips every owes/owed edge referencing them from the
remaining rows, and leaves every other member's net balance exactly as it
was — the abandoned amounts are neither redistributed nor deducted from
the counterparties' nets. -/
theorem removeMember_purges_row_and_edges (g : GroupDoc) (uid remover : ℕ) (g2 : GroupDoc)
    (h : removeMember g uid remover = .ok g2) :
    hasRow g2.balances uid = false
    ∧ (∀ b ∈ g2.balances, (∀ o ∈ b.owes, o.to_ ≠ uid) ∧ (∀ o ∈ b.owed, o.from_ ≠ uid))
    ∧ (∀ v, v ≠ uid → netOf g2.balances v = netOf g.balances v) := by
  rw [removeMember_balances g uid remover g2 h]
  exact ⟨hasRow_stripBalances g.balances uid, edges_stripBalances g.balances uid,
    fun v hv => netOf_stripBalances g.balances uid v hv⟩

/-- C9 (witness): the purge on the concrete group `gAB`. -/
theorem removeMember_purges_row_and_edges_witness :
    hasRow gABr.balances 2 = false
    ∧ netOf gABr.balances 1 = netOf gAB.balances 1 := by
  have h := removeMember_purges_row_and_edges gAB 2 1 gABr rfl
  exact ⟨h.1, h.2.2 1 (by decide)⟩

/-- C10: deleting a group with an unsettled expense fails with
`UnsettledExpensesExist` and changes nothing; with no unsettled expense
left it succeeds, keeps the group record but marks it inactive
(soft delete), and strips the group id from every user's membership
list. -/
theorem delete_group_guard_and_soft_delete (st : Store) (g : GroupDoc) (caller : ℕ)
    (hg : findGroup st g.id = some g) (hcreator : g.createdBy = caller) :
    (unsettledExpenses st g.id ≠ [] →
        deleteGroupRoute st caller g.id = (.error .unsettledExpensesExist, st))
    ∧ (unsettledExpenses st g.id = [] →
        (deleteGroupRoute st caller g.id).1 = .ok ()
        ∧ findGroup (deleteGroupRoute st caller g.id).2 g.id = some { g with isActive := false }
        ∧ ∀ usr ∈ (deleteGroupRoute st caller g.id).2.users, g.id ∉ usr.groups) := by
  have hcb : (g.createdBy == caller) = true := by simp [hcreator]
  constructor
  · intro hne
    have hlen : (unsettledExpenses st g.id).length > 0 := List.length_pos.mpr hne
    simp [deleteGroupRoute, hg, hcb, hlen]
  · intro hempty
    have hlen : ¬((unsettledExpenses st g.id).length > 0) := by simp [hempty]
    have hred : deleteGroupRoute st caller g.id
        = (.ok (), saveGroup { st with users := st.users.map (fun usr => if g.id ∈ usr.groups then { usr with groups := usr.groups.filter (fun x => x != g.id) } else usr) } { g with isActive := false }) := by
      simp [deleteGroupRoute, hg, hcb, hlen]
    refine ⟨by rw [hred], ?_, ?_⟩
    · rw [hred]
      exact findG_replaceG st.groups _ g g.id hg rfl
    · rw [hred]
      intro usr husr
      obtain ⟨u0, hu0, hmap⟩ := List.mem_map.mp husr
      by_cases hmem : g.id ∈ u0.groups
      · rw [← hmap]
        simp [hmem]
      · rw [← hmap]
        simp [hmem]

/-- C10 (witness): deleting group 8 (which still has the unsettled
expense 21) fails and changes nothing; deleting the clean group 4
succeeds and leaves its record present but inactive. -/
theorem delete_group_guard_and_soft_delete_witness :
    deleteGroupRoute stPend 1 8 = (.error .unsettledExpensesExist, stPend)
    ∧ findGroup (deleteGroupRoute stClean 1 4).2 4 = some { gClean with isActive := false } := by
  have h1 := (delete_group_guard_and_soft_delete stPend gPend 1 rfl rfl).1 (by decide)
  have h2 := (delete_group_guard_and_soft_delete stClean gClean 1 rfl rfl).2 (by decide)
  exact ⟨h1, h2.2.1⟩

end PayChat
